import Mathlib

/-!
Verification of the Bury steganographic codec (node-bury, `Bury.js`, VERSION_CODE 0x02).

This file gives a shallow embedding of the codec's core routines —
the password-parameter derivation (`deriveParamsFromKey`), the stride
demarcation (`demarcate_strides`), bit modulation (`modulate` / `getBit` /
`set_channel_spec`), the frame assembly inside `encrypt`, the header and
checksum verification (`decodeHeader` / `verify_checksum`), the plaintext
padding and trimming performed by `setMessage` / `decrypt`, and the
password-compatibility test (`testPasswordCompatibility`) — together with
theorems about them.

External libraries (CryptoJS SHA-256/MD5/AES, the `mersenne` MT19937, node-gd,
bufferpack, compressjs) are not part of the repository; they enter the
embedding as function parameters: an abstract hash `sha256 : List Nat → List Nat`,
an abstract seeded generator `rand : Nat → Nat → Nat` mapping the index of the
call and the bound `n` to the value of `rng.rand(n)` (a value in `[0, n)` for a
conforming generator), abstract string renderings for the checksum comparison,
and `bufferpack.packTo` modelled by its documented byte-splice semantics.

Images are 24-bit truecolor rasters, modelled as total maps from the row-major
linear pixel index to the packed integer colour, exactly the view that
`imageColorAt` / `setPixel` provide (coordinates `(x, y)` address linear index
`y * width + x`).
-/

namespace Bury

/-- Global constant of Bury.js: the version byte written into the header. -/
def VERSION_CODE : Nat := 2

/-- Global constant of Bury.js: minimum tolerated password length. -/
def MIN_PASS_LENGTH : Nat := 8

/-- Global constant of Bury.js: length of the header in bytes. -/
def HEADER_LENGTH : Nat := 9

def STR_PAD_LEFT : Nat := 1
def STR_PAD_RIGHT : Nat := 2
def STR_PAD_BOTH : Nat := 3

/-- The `pad(str, len, pad, dir)` helper of Bury.js, specialised to a one-character
pad string: `Array(n).join(c)` is `n - 1` copies of `c`, so the left branch
appends `len - str.length` copies.  Padding happens only when
`len + 1 >= str.length`. -/
def jsPad (str : List Char) (len : Nat) (c : Char) (dir : Nat) : List Char :=
  if len + 1 ≥ str.length then
    if dir = STR_PAD_LEFT then
      List.replicate (len - str.length) c ++ str
    else if dir = STR_PAD_BOTH then
      let padlen := len - str.length
      let right := (padlen + 1) / 2
      let left := padlen - right
      List.replicate left c ++ str ++ List.replicate right c
    else
      str ++ List.replicate (len - str.length) c
  else str

/-- The padding `setMessage` applies to a string message before encryption.
The source computes
`padded_len = Math.floor(message.length) + (message.length % 16) ? 16 : 0`,
which by JavaScript operator precedence is
`(message.length + message.length % 16) ? 16 : 0`, i.e. `16` for every
non-empty message; the message is then right-padded with spaces to that
length. -/
def setMessagePad (msg : List Char) : List Char :=
  let paddedLen := if msg.length + msg.length % 16 ≠ 0 then 16 else 0
  jsPad msg paddedLen ' ' STR_PAD_RIGHT

/-- Whitespace recognised by JavaScript's `String.prototype.trim` (ASCII part). -/
def isJsSpace (c : Char) : Bool :=
  c == ' ' || c == '\t' || c == '\n' || c == '\r'

/-- JavaScript `String.prototype.trim`: strip leading and trailing whitespace, as applied by
`decrypt()` to the recovered plaintext. -/
def jsTrim (s : List Char) : List Char :=
  ((s.dropWhile isJsSpace).reverse.dropWhile isJsSpace).reverse

/-- The `strncmp` helper of Bury.js: `a.substring(0, n) == b.substring(0, n)`.
Note that unlike C's `strncmp` it returns the *equality* of the prefixes. -/
def strncmp (a b : List Char) (n : Nat) : Bool :=
  a.take n == b.take n

/-- The function `verify_checksum()` of Bury.js.  `__ciphertext` is the demodulated byte
stream with the header already removed; the last 16 bytes of the
`__payload_size`-byte payload are the stored checksum.  The source returns
`!strncmp(chksum.toString(), hash.toString(), 32)` where `hash` is the MD5 of
the message part.  The MD5 itself and the two JavaScript `toString` renderings
are external, so they are parameters (`md5Str` renders the recomputed hash,
`arrStr` renders the stored checksum bytes). -/
def verify_checksum (md5Str arrStr : List Nat → List Char)
    (ciphertext : List Nat) (payloadSize : Nat) : Bool :=
  let msg := ciphertext.take (payloadSize - 16)
  let chksum := ciphertext.drop (payloadSize - 16)
  ! strncmp (arrStr chksum) (md5Str msg) 32

/-- The version field read by `decodeHeader`: `unpack('<H', bytes, 0)`,
a little-endian 16-bit integer. -/
def headerVersion (bytes : List Nat) : Nat :=
  bytes.getD 0 0 + 256 * bytes.getD 1 0

/-- The payload-size field read by `decodeHeader`: `unpack('>I', bytes, 5)`,
a big-endian 32-bit integer at byte offset 5. -/
def headerPayloadSize (bytes : List Nat) : Nat :=
  ((bytes.getD 5 0 * 256 + bytes.getD 6 0) * 256 + bytes.getD 7 0) * 256 + bytes.getD 8 0

/-- The verdict of `decodeHeader`: true exactly when the version field matches
`VERSION_CODE`. -/
def decodeHeaderOk (bytes : List Nat) : Bool :=
  headerVersion bytes == VERSION_CODE

/-- The tail of `demodulate()`: after the bytes are collected,
`decodeHeader(all_bytes)` must succeed (it also strips the 9 header bytes into
`__ciphertext` and records `__payload_size`) and then `verify_checksum()` must
return true; otherwise demodulation reports failure and `getMessage` returns no
message. -/
def demodulateVerdict (md5Str arrStr : List Nat → List Char) (bytes : List Nat) : Bool :=
  if decodeHeaderOk bytes then
    verify_checksum md5Str arrStr (bytes.drop HEADER_LENGTH) (headerPayloadSize bytes)
  else false

/-- The call `bufferpack.packTo(fmt, buf, pos, data)` for plain byte formats: splice
`data` into the buffer starting at byte `pos`. -/
def packTo (buf : List Nat) (pos : Nat) (data : List Nat) : List Nat :=
  buf.take pos ++ data ++ buf.drop (pos + data.length)

/-- Big-endian 32-bit encoding, the `'>I'` format. -/
def be32 (n : Nat) : List Nat :=
  [n / 16777216 % 256, n / 65536 % 256, n / 256 % 256, n % 256]

/-- The frame assembly performed by `encrypt()` of Bury.js once the IV, the
ciphertext and the MD5 checksum are in hand:

* allocate `new Buffer(payload_length + HEADER_LENGTH)` (contents
  unspecified — the fresh buffer is the parameter `buf0`);
* `packTo('<HxBx', buf, 0, [VERSION_CODE, message_params])`;
* `packTo('>I', buf, 5, [payload_length])`;
* `packTo(iv, buf, HEADER_LENGTH)`;
* `packTo(encrypted, buf, HEADER_LENGTH + nu_iv.length)`;
* `packTo(checksum, buf, payload_length - 16)`.

The checksum offset in the source is `payload_length - 16`, with no
`HEADER_LENGTH` added. -/
def encryptFrame (msgParams : Nat) (nuIv encrypted checksum buf0 : List Nat) : List Nat :=
  let payloadLength := encrypted.length + nuIv.length + checksum.length
  let b1 := packTo buf0 0 [VERSION_CODE % 256, VERSION_CODE / 256 % 256, 0, msgParams, 0]
  let b2 := packTo b1 5 (be32 payloadLength)
  let b3 := packTo b2 HEADER_LENGTH nuIv
  let b4 := packTo b3 (HEADER_LENGTH + nuIv.length) encrypted
  packTo b4 (payloadLength - 16) checksum

/-- Concrete 16-byte IV used to evaluate the frame assembly. -/
def ivC : List Nat := List.range' 100 16

/-- Concrete 16-byte ciphertext (all bytes 0xAA) used to evaluate the frame assembly. -/
def ctC : List Nat := List.replicate 16 170

/-- Concrete 16-byte checksum (bytes 1..16) used to evaluate the frame assembly. -/
def ckC : List Nat := List.range' 1 16

/-- The tuple produced by `deriveParamsFromKey`. -/
structure Params where
  offset : Nat
  maxStride : Nat
  strideSeed : Nat
  rounds : Nat
  key : List Nat
  deriving Repr, DecidableEq

/-- The function `deriveParamsFromKey(pw)` of Bury.js.  `sha256` abstracts
`toByteArray(CryptoJS.SHA256(pw).words)` (the 32-byte digest of the password),
`shaIter` abstracts one further `CryptoJS.SHA256` round on a 32-byte digest.

* `offset = hash_arr[0]`
* `max_stride = 2 + (hash_arr[3] % 14)`
* `rounds = ((hash_arr[1] * 256) + hash_arr[2]) % 9000`
* the mixer loop XORs `hash_arr[i+4] / [i+11] / [i+18] / [i+25]` for `i = 0..6`
  into four accumulators that start at 0 (`x ^ undefined` is `x` in JavaScript)
* `stride_seed = ((t0 * 16777216) % 128) + t1 * 65536 + t2 * 256 + t3`
* the key is the digest hashed `rounds` further times. -/
def deriveParamsFromKey (sha256 shaIter : List Nat → List Nat) (pw : List Nat) : Params :=
  let hashArr := sha256 pw
  let offset := hashArr.getD 0 0
  let maxStride := 2 + hashArr.getD 3 0 % 14
  let rounds := (hashArr.getD 1 0 * 256 + hashArr.getD 2 0) % 9000
  let mixer := (List.range 7).foldl
    (fun (t : Nat × Nat × Nat × Nat) i =>
      (hashArr.getD (i + 4) 0 ^^^ t.1,
       hashArr.getD (i + 11) 0 ^^^ t.2.1,
       hashArr.getD (i + 18) 0 ^^^ t.2.2.1,
       hashArr.getD (i + 25) 0 ^^^ t.2.2.2)) (0, 0, 0, 0)
  let strideSeed :=
    mixer.1 * 16777216 % 128 + mixer.2.1 * 65536 + mixer.2.2.1 * 256 + mixer.2.2.2
  let key := (List.range rounds).foldl (fun h _ => shaIter h) hashArr
  { offset := offset, maxStride := maxStride, strideSeed := strideSeed,
    rounds := rounds, key := key }

/-- The loop body of `demarcate_strides()`:

```
while (total_remaining > 0) {
  var delta = rng.rand(max_stride - 1) + 1;
  total_remaining = total_remaining - delta;
  if (total_remaining > 0) { usable_pixels++; __strides.push(delta); }
}
```

`rand k b` is the value of the `k`-th call `rng.rand(b)` made on the seeded
generator; the returned pair carries the strides and the number of generator
calls consumed.  The JavaScript loop terminates because every `delta` is at
least 1; the structural `fuel` argument (instantiated with the initial
remaining-pixel count, which bounds the iteration count) realises that
termination argument. -/
def demarcateAux (rand : Nat → Nat → Nat) (maxStride : Nat) :
    Nat → Nat → Nat → List Nat × Nat
  | 0, k, _ => ([], k)
  | fuel + 1, k, remaining =>
    if 0 < remaining then
      let delta := rand k (maxStride - 1) + 1
      if delta < remaining then
        let rest := demarcateAux rand maxStride fuel (k + 1) (remaining - delta)
        (delta :: rest.1, rest.2)
      else ([], k + 1)
    else ([], k)

/-- The function `demarcate_strides()` over a `w × h` carrier: the initial remaining count
is `__x * __y - __offset`. -/
def demarcate (rand : Nat → Nat → Nat) (w h offset maxStride : Nat) : List Nat × Nat :=
  demarcateAux rand maxStride (w * h - offset) 0 (w * h - offset)

/-- The per-password stride loop of `Bury.testPasswordCompatibility`:

```
rng.seed(params.stride_seed);
var n = params.offset;
while (n < test_limit) { n += rng.rand(params.max_stride); strides.push(n); }
```

Note the draw is `rng.rand(max_stride)` with no `+ 1`; a zero draw leaves `n`
unchanged, so the JavaScript loop need not terminate — the structural `fuel`
argument truncates that divergence. -/
def compatStridesAux (rand : Nat → Nat → Nat) (maxStride testLimit : Nat) :
    Nat → Nat → Nat → List Nat × Nat
  | 0, k, _ => ([], k)
  | fuel + 1, k, n =>
    if n < testLimit then
      let n' := n + rand k maxStride
      let rest := compatStridesAux rand maxStride testLimit fuel (k + 1) n'
      (n' :: rest.1, rest.2)
    else ([], k)

/-- The two-password case of `Bury.testPasswordCompatibility(pass0, pass1)`,
after parameter derivation: `test_limit = max(offset0, offset1)`; generate each
password's stride pixels; return true iff neither password's offset occurs in
the other's stride-pixel list.  `mt seed k b` abstracts the `k`-th call
`rng.rand(b)` after `rng.seed(seed)`. -/
def testPasswordCompatibility2 (mt : Nat → Nat → Nat → Nat) (fuel : Nat)
    (p0 p1 : Params) : Bool :=
  let testLimit := max p0.offset p1.offset
  let strides0 := (compatStridesAux (mt p0.strideSeed) p0.maxStride testLimit fuel 0 p0.offset).1
  let strides1 := (compatStridesAux (mt p1.strideSeed) p1.maxStride testLimit fuel 0 p1.offset).1
  if strides1.contains p0.offset || strides0.contains p1.offset then false else true

/-- A 24-bit truecolor raster viewed through `imageColorAt` / `setPixel`:
a total map from the row-major linear pixel index to the packed colour. -/
abbrev Image := Nat → Nat

/-- The call `colorAllocate(red, green, blue)` on a truecolor image: the packed colour. -/
def pack24 (r g b : Nat) : Nat := r * 65536 + g * 256 + b

/-- The call `setPixel` at a linear index. -/
def setPixelLinear (img : Image) (p c : Nat) : Image :=
  fun q => if q = p then c else img q

/-- The read `(temp >> 16) & 0xFF`: the red channel of a packed colour. -/
def getRed (c : Nat) : Nat := (c >>> 16) &&& 255

/-- The read `(temp >> 8) & 0xFF`: the green channel of a packed colour. -/
def getGreen (c : Nat) : Nat := (c >>> 8) &&& 255

/-- The read `temp & 0xFF`: the blue channel of a packed colour. -/
def getBlue (c : Nat) : Nat := c &&& 255

/-- The function `set_channel_spec()`: at the offset pixel (`j = offset % __x`,
`i = floor(offset / __x)`, linear index `i * w + j`) set each channel's LSB to
its enable flag, preserving the upper seven bits. -/
def set_channel_spec (img : Image) (w offset : Nat) (er eg eb : Bool) : Image :=
  let xj := offset % w
  let yi := offset / w
  let temp := img (yi * w + xj)
  let red := ((temp >>> 16) &&& 254) ||| (if er then 1 else 0)
  let green := ((temp >>> 8) &&& 254) ||| (if eg then 1 else 0)
  let blue := (temp &&& 254) ||| (if eb then 1 else 0)
  setPixelLinear img (yi * w + xj) (pack24 red green blue)

/-- The modulation bit source state: `(__bitCursor, k)` where `k` counts the
calls made so far on the seeded stride generator (the same global `rng`
that `demarcate_strides` consumed). -/
abbrev GBState := Nat × Nat

/-- The function `getBit()` of Bury.js.  While `__bitCursor < __payload_size * 8` it returns
bit `__bitCursor % 8` (LSB first) of byte `__bitCursor / 8` of `__ciphertext`
and advances the cursor.  Once the payload is exhausted it returns `false`
(`none`) in visible mode, and otherwise `rng.rand(1) ? 1 : 0` — one further
draw from the same stride generator. -/
def getBit (rand : Nat → Nat → Nat) (visible : Bool) (ct : List Nat)
    (payloadSize : Nat) (st : GBState) : Option Nat × GBState :=
  if st.1 < payloadSize * 8 then
    let byte := st.1 / 8
    let bit := st.1 % 8
    let mask := 1 <<< bit
    let feed := ct.getD byte 0
    (some (if feed &&& mask ≠ 0 then 1 else 0), (st.1 + 1, st.2))
  else if visible then (none, st)
  else (some (if rand st.2 1 ≠ 0 then 1 else 0), (st.1, st.2 + 1))

/-- One guarded `bit = getBit()` call inside `modulate()`: performed only when
the channel is enabled.  Returns the assigned value (`none` when the channel is
disabled and no assignment happened), the new state, and the trace of getBit
results consumed. -/
def modChan (rand : Nat → Nat → Nat) (visible : Bool) (ct : List Nat) (ps : Nat)
    (enabled : Bool) (st : GBState) : Option (Option Nat) × GBState × List (Option Nat) :=
  if enabled then
    let g := getBit rand visible ct ps st
    (some g.1, g.2, [g.1])
  else (none, st, [])

/-- The update `if (bit !== false) chan = (chan & 0xFE) + bit` — the channel update in the
invisible branch of `modulate()`. -/
def applyBit (chan : Nat) (r : Option (Option Nat)) : Nat :=
  match r with
  | some (some b) => (chan &&& 254) + b
  | _ => chan

/-- The body of the pixel loop of `modulate()`: extract the channels of the
pixel at linear index `abs_pix`, draw bits for the enabled channels in the
wire-format order red, blue, green, and write the pixel back.  In
`visibleResult` mode the pixel is replaced by a flag colour decided by the last
drawn bit (`bit === false` gives green, anything else — including no enabled
channel at all — gives red). -/
def modulatePixel (rand : Nat → Nat → Nat) (visible : Bool) (ct : List Nat)
    (ps : Nat) (er eb eg : Bool) (w : Nat) (img : Image) (absPix : Nat)
    (st : GBState) : Image × GBState × List (Option Nat) :=
  let xi := absPix % w
  let yj := absPix / w
  let temp := img (yj * w + xi)
  let red := (temp >>> 16) &&& 255
  let green := (temp >>> 8) &&& 255
  let blue := temp &&& 255
  let c1 := modChan rand visible ct ps er st
  let c2 := modChan rand visible ct ps eb c1.2.1
  let c3 := modChan rand visible ct ps eg c2.2.1
  let trace := c1.2.2 ++ c2.2.2 ++ c3.2.2
  if visible then
    let lastBit := c3.1.orElse (fun _ => c2.1.orElse (fun _ => c1.1))
    let rgb : Nat × Nat × Nat :=
      match lastBit with
      | some none => (0, 255, 0)
      | _ => (255, 0, 0)
    (setPixelLinear img (yj * w + xi) (pack24 rgb.1 rgb.2.1 rgb.2.2), c3.2.1, trace)
  else
    let red' := applyBit red c1.1
    let blue' := applyBit blue c2.1
    let green' := applyBit green c3.1
    (setPixelLinear img (yj * w + xi) (pack24 red' green' blue'), c3.2.1, trace)

/-- The pixel loop of `modulate()`: `abs_pix` starts at `__offset` and advances
by each stride in turn. -/
def modulateAux (rand : Nat → Nat → Nat) (visible : Bool) (ct : List Nat)
    (ps : Nat) (er eb eg : Bool) (w : Nat) :
    List Nat → Nat → Image → GBState → Image × GBState × List (Option Nat)
  | [], _, img, st => (img, st, [])
  | d :: rest, abs, img, st =>
    let abs' := abs + d
    let p := modulatePixel rand visible ct ps er eb eg w img abs' st
    let r := modulateAux rand visible ct ps er eb eg w rest abs' p.1 p.2.1
    (r.1, r.2.1, p.2.2 ++ r.2.2)

/-- The function `modulate()`: write the channel spec at the offset pixel, reset
`__bitCursor` to 0, then modulate every stride pixel.  `k0` is the number of
draws the stride generator has already served (the draws `demarcate_strides`
made), so the filler bits continue the same stream. -/
def modulateFull (rand : Nat → Nat → Nat) (visible : Bool) (ct : List Nat)
    (ps : Nat) (er eg eb : Bool) (w : Nat) (img : Image) (offset : Nat)
    (strides : List Nat) (k0 : Nat) : Image × GBState × List (Option Nat) :=
  let img1 := set_channel_spec img w offset er eg eb
  modulateAux rand visible ct ps er eb eg w strides offset img1 (0, k0)

/-- The pixel indices `p_i = offset + s_1 + ... + s_i` visited by the stride
walk (the channel-spec pixel `p_0 = offset` is not among them). -/
def stridePixels (offset : Nat) : List Nat → List Nat
  | [] => []
  | d :: rest => (offset + d) :: stridePixels (offset + d) rest

/-- The constructor-and-`setMessage` encode ordering: `demarcate_strides` is
invoked by the constructor, `set_channel_spec`/`modulate` by `setMessage`; the
stride generator state (`k`) flows from demarcation into modulation. -/
def encodePipeline (rand : Nat → Nat → Nat) (w h offset ms : Nat)
    (visible : Bool) (ct : List Nat) (ps : Nat) (er eg eb : Bool)
    (img : Image) : Image × GBState × List (Option Nat) :=
  let d := demarcate rand w h offset ms
  modulateFull rand visible ct ps er eg eb w img offset d.1 d.2

/-- The password-derived portion of the `Bury` constructor state.  When the
password is shorter than `MIN_PASS_LENGTH` the constructor only logs
`Password is too short...` and leaves every derived parameter at its `-1`
sentinel (`__key` stays `''`); otherwise it installs the derived parameters. -/
structure BuryInit where
  offset : Int
  maxStride : Int
  strideSeed : Int
  key : List Nat
  shortPwLogged : Bool
  deriving Repr

/-- The password check at the foot of the `Bury` constructor. -/
def buryInit (derive : List Nat → Params) (pw : List Nat) : BuryInit :=
  if pw.length < MIN_PASS_LENGTH then
    { offset := -1, maxStride := -1, strideSeed := -1, key := [], shortPwLogged := true }
  else
    let p := derive pw
    { offset := Int.ofNat p.offset, maxStride := Int.ofNat p.maxStride,
      strideSeed := Int.ofNat p.strideSeed, key := p.key, shortPwLogged := false }

/-- The `demarcate_strides` guard: the stride walk runs only when
`__stride_seed >= 0`; with the `-1` sentinel the stride list stays empty. -/
def buryDemarcate (mt : Nat → Nat → Nat → Nat) (w h : Nat) (st : BuryInit) : List Nat :=
  if 0 ≤ st.strideSeed then
    (demarcate (mt st.strideSeed.toNat) w h st.offset.toNat st.maxStride.toNat).1
  else []

/-- The field `__max_size`: set by `findMaxPayloadSize` (called from `demarcate_strides`)
to `floor(bpp * strides.length / 8)`; it keeps its `-1` sentinel when the
stride walk never ran. -/
def buryMaxSize (bpp : Nat) (st : BuryInit) (strides : List Nat) : Int :=
  if 0 ≤ st.strideSeed then Int.ofNat (bpp * strides.length / 8) else -1

/-- The capacity gate in `setMessage`: modulation happens only when
`__payload_size <= __max_size`; otherwise `setMessage` returns false and the
carrier is left untouched.  `modulated` is the image modulation would have
produced. -/
def setMessageGate (maxSize : Int) (frame : List Nat) (img modulated : Image) :
    Bool × Image :=
  if (frame.length : Int) ≤ maxSize then (true, modulated) else (false, img)

/-- One channel step of `demodulate()`:
`all_bytes[byte] = (all_bytes[byte] >> 1) + (lsb << 7)`, then append a fresh
zero byte after every eighth bit. -/
def demodChan (lsb : Nat) (st : List Nat × Nat × Nat) : List Nat × Nat × Nat :=
  let cur := st.1.getD st.2.1 0
  let bytes' := st.1.set st.2.1 ((cur >>> 1) + (lsb <<< 7))
  let bit' := st.2.2 + 1
  if bit' % 8 = 0 then (bytes' ++ [0], st.2.1 + 1, bit')
  else (bytes', st.2.1, bit')

/-- The pixel body of `demodulate()`: read the enabled channels in the order
red, blue, green. -/
def demodPixel (er eb eg : Bool) (temp : Nat) (st : List Nat × Nat × Nat) :
    List Nat × Nat × Nat :=
  let s1 := if er then demodChan ((temp >>> 16) &&& 1) st else st
  let s2 := if eb then demodChan (temp &&& 1) s1 else s1
  if eg then demodChan ((temp >>> 8) &&& 1) s2 else s2

/-- The byte-collection loop of `demodulate()`: `all_bytes` starts as
`[0x00]` and the walk visits each stride pixel in turn. -/
def demodulateBytes (img : Image) (w : Nat) (er eb eg : Bool) (offset : Nat)
    (strides : List Nat) : List Nat :=
  let final := (stridePixels offset strides).foldl
    (fun st p => demodPixel er eb eg (img ((p / w) * w + p % w)) st)
    ([0], 0, 0)
  final.1

/-- Two images agree on the upper seven bits of every channel of every pixel:
only least-significant bits (of any pixel) may differ. -/
def Preserves7 (img img' : Image) : Prop :=
  ∀ q, getRed (img' q) >>> 1 = getRed (img q) >>> 1 ∧
    getGreen (img' q) >>> 1 = getGreen (img q) >>> 1 ∧
    getBlue (img' q) >>> 1 = getBlue (img q) >>> 1

/-- A conforming generator that always draws 0 (a legal value of
`rng.rand(n)`, which ranges over `[0, n)`). -/
def randZero : Nat → Nat → Nat := fun _ _ => 0

/-- Concrete carrier used by witnesses. -/
def imgC : Image := fun p => 7 * p + 3

/-- Concrete checksum-rendering stub used by witnesses. -/
def hexC : List Nat → List Char := fun _ => ['a']

/-- Concrete header+payload byte stream with matching checksum rendering,
used by witnesses: version 2, payload size 32. -/
def bytesC : List Nat := [2, 0, 0, 0, 0, 0, 0, 0, 32] ++ List.replicate 32 7

/-- Concrete derive stub used by witnesses. -/
def deriveC : List Nat → Params :=
  fun _ => { offset := 0, maxStride := 2, strideSeed := 0, rounds := 0, key := [] }

/-! ## Helper lemmas -/

theorem foldl_iterate {α : Type} (f : α → α) (x : α) (n : Nat) :
    (List.range n).foldl (fun a _ => f a) x = f^[n] x := by
  induction n with
  | zero => rfl
  | succ m ih =>
    rw [List.range_succ, List.foldl_append, ih, List.foldl_cons, List.foldl_nil,
      Function.iterate_succ_apply']

/-! ## Claim theorems -/

/-- C1: the spec claims `decode(encode(C, P, M), P).message == M` byte-for-byte.
Counter-evidence from the plaintext layer of the code: `setMessage` right-pads
a string message with spaces to 16 bytes and `decrypt()` applies
`String.prototype.trim` to the recovered plaintext, so even if every
intermediate stage (compression, cipher, modulation) were inverted perfectly,
the message `" x"` would decode to `"x"`, not to `" x"`. -/
theorem c1_space_message_not_recovered :
    jsTrim (setMessagePad [' ', 'x']) = ['x'] ∧
    jsTrim (setMessagePad [' ', 'x']) ≠ [' ', 'x'] := by
  decide

/-- C2: the spec claims checksum verification succeeds iff
`MD5(ciphertext)` equals the stored checksum, failing with `BadChecksum` on
mismatch.  The code's `verify_checksum` returns
`!strncmp(chksum.toString(), hash.toString(), 32)` where this JavaScript
`strncmp` returns the *equality* of the 32-character prefixes — so for any
frame whose header parses, verification *fails* exactly when the renderings
match and *succeeds* exactly when they differ: the test is inverted. -/
theorem c2_checksum_check_inverted (md5Str arrStr : List Nat → List Char)
    (bytes : List Nat) (hver : decodeHeaderOk bytes = true) :
    (strncmp (arrStr ((bytes.drop HEADER_LENGTH).drop (headerPayloadSize bytes - 16)))
        (md5Str ((bytes.drop HEADER_LENGTH).take (headerPayloadSize bytes - 16))) 32 = true →
      demodulateVerdict md5Str arrStr bytes = false) ∧
    (strncmp (arrStr ((bytes.drop HEADER_LENGTH).drop (headerPayloadSize bytes - 16)))
        (md5Str ((bytes.drop HEADER_LENGTH).take (headerPayloadSize bytes - 16))) 32 = false →
      demodulateVerdict md5Str arrStr bytes = true) := by
  unfold demodulateVerdict verify_checksum
  constructor <;> intro h <;> simp only [List.drop_drop, Nat.add_comm] at h <;>
    simp [hver, h, List.drop_drop, Nat.add_comm]

/-- Witness for `c2_checksum_check_inverted`: a concrete version-2 frame whose
stored checksum renders identically to the recomputed MD5 (renderings stubbed
by the constant `hexC`) is rejected by `demodulate`. -/
theorem c2_checksum_check_inverted_witness :
    demodulateVerdict hexC hexC bytesC = false :=
  (c2_checksum_check_inverted hexC hexC bytesC (by decide)).1 (by decide)

/-- C3: the spec claims the assembled frame is the 9-byte header followed by
`IV(16) ‖ CIPHERTEXT ‖ MD5(CIPHERTEXT)(16)` with the MD5 occupying the final
16 bytes of the frame.  Evaluating `encrypt`'s packing at a concrete
16-byte IV, 16-byte ciphertext (all `0xAA`) and checksum `[1..16]`
(`payload_length = 48`, frame length 57): the header and the payload-size
field and the IV are laid out as claimed, but the checksum is packed at byte
offset `payload_length - 16 = 32` — inside the ciphertext region, overwriting
its last 9 bytes — and the frame's final 9 bytes are never written (they keep
the fresh buffer's contents, here zeros). -/
theorem c3_checksum_not_in_final_bytes :
    (encryptFrame 0 ivC ctC ckC (List.replicate 57 0)).length = 57 ∧
    (encryptFrame 0 ivC ctC ckC (List.replicate 57 0)).take 9 =
      [2, 0, 0, 0, 0, 0, 0, 0, 48] ∧
    ((encryptFrame 0 ivC ctC ckC (List.replicate 57 0)).drop 9).take 16 = ivC ∧
    ((encryptFrame 0 ivC ctC ckC (List.replicate 57 0)).drop 32).take 16 = ckC ∧
    (encryptFrame 0 ivC ctC ckC (List.replicate 57 0)).drop 41 ≠ ckC ∧
    (encryptFrame 0 ivC ctC ckC (List.replicate 57 0)).drop 48 = List.replicate 9 0 ∧
    (encryptFrame 0 ivC ctC ckC (List.replicate 57 0)).getD 32 0 = 1 := by
  decide

/-- C4: parameter derivation is a deterministic total function of the password
digest `h = SHA-256(P)`: `offset = h[0]`, `max_stride = 2 + (h[3] mod 14)`
(hence in `[2, 15]`), `rounds = ((h[1]*256 + h[2]) mod 9000)`,
`stride_seed = ((t0*16777216) mod 128) + t1*65536 + t2*256 + t3` with
`t[j]` the XOR of `h[4 + 7j + i]` for `i = 0..6`, and the cipher key is
SHA-256 iterated `rounds` further times. -/
theorem c4_derive_params (sha256 shaIter : List Nat → List Nat) (pw : List Nat) :
    (deriveParamsFromKey sha256 shaIter pw).offset = (sha256 pw).getD 0 0 ∧
    (deriveParamsFromKey sha256 shaIter pw).maxStride = 2 + (sha256 pw).getD 3 0 % 14 ∧
    2 ≤ (deriveParamsFromKey sha256 shaIter pw).maxStride ∧
    (deriveParamsFromKey sha256 shaIter pw).maxStride ≤ 15 ∧
    (deriveParamsFromKey sha256 shaIter pw).rounds =
      ((sha256 pw).getD 1 0 * 256 + (sha256 pw).getD 2 0) % 9000 ∧
    (deriveParamsFromKey sha256 shaIter pw).strideSeed =
      ((List.range 7).foldl (fun a i => (sha256 pw).getD (4 + 7 * 0 + i) 0 ^^^ a) 0)
          * 16777216 % 128 +
        ((List.range 7).foldl (fun a i => (sha256 pw).getD (4 + 7 * 1 + i) 0 ^^^ a) 0) * 65536 +
        ((List.range 7).foldl (fun a i => (sha256 pw).getD (4 + 7 * 2 + i) 0 ^^^ a) 0) * 256 +
        (List.range 7).foldl (fun a i => (sha256 pw).getD (4 + 7 * 3 + i) 0 ^^^ a) 0 ∧
    (deriveParamsFromKey sha256 shaIter pw).key =
      shaIter^[(deriveParamsFromKey sha256 shaIter pw).rounds] (sha256 pw) := by
  refine ⟨rfl, rfl, ?_, ?_, rfl, ?_, ?_⟩
  · exact Nat.le_add_right 2 _
  · have : (sha256 pw).getD 3 0 % 14 < 14 := Nat.mod_lt _ (by omega)
    simp only [deriveParamsFromKey]
    omega
  · rfl
  · simp only [deriveParamsFromKey]
    exact foldl_iterate shaIter (sha256 pw) _

/-- C6: the spec claims `are_compatible(P, P)` is false for any single
password evaluated against itself.  In the code, with both passwords equal the
test limit `max(offset, offset)` equals the starting cursor, so both
stride-pixel lists are empty, neither `indexOf` finds the offset, and
`testPasswordCompatibility` returns *true* — the degenerate case is reported
compatible, contradicting both the spec and the function's own description. -/
theorem c6_same_password_reported_compatible (mt : Nat → Nat → Nat → Nat)
    (fuel : Nat) (p : Params) :
    testPasswordCompatibility2 mt fuel p p = true := by
  unfold testPasswordCompatibility2
  cases fuel with
  | zero => simp [compatStridesAux]
  | succ f => simp [compatStridesAux]

/-- Every stride delta produced by `demarcate_strides` is at least 1 (the draw
is `rng.rand(max_stride - 1) + 1`), whatever the generator returns. -/
theorem demarcateAux_one_le (rand : Nat → Nat → Nat) (ms : Nat) :
    ∀ fuel k r, ∀ d ∈ (demarcateAux rand ms fuel k r).1, 1 ≤ d := by
  intro fuel
  induction fuel with
  | zero =>
    intro k r d hd
    simp [demarcateAux] at hd
  | succ f ih =>
    intro k r d hd
    unfold demarcateAux at hd
    by_cases h0 : 0 < r
    · simp only [if_pos h0] at hd
      by_cases hδ : rand k (ms - 1) + 1 < r
      · simp only [if_pos hδ, List.mem_cons] at hd
        rcases hd with he | ht
        · omega
        · exact ih (k + 1) (r - (rand k (ms - 1) + 1)) d ht
      · simp only [if_neg hδ, List.not_mem_nil] at hd
    · simp only [if_neg h0, List.not_mem_nil] at hd

/-- For a conforming generator, every `demarcate_strides` delta lies in
`[1, max_stride - 1]`. -/
theorem demarcateAux_delta_bounds (rand : Nat → Nat → Nat)
    (hr : ∀ k b, 0 < b → rand k b < b) (ms : Nat) (hms : 2 ≤ ms) :
    ∀ fuel k r, ∀ d ∈ (demarcateAux rand ms fuel k r).1, 1 ≤ d ∧ d ≤ ms - 1 := by
  intro fuel
  induction fuel with
  | zero =>
    intro k r d hd
    simp [demarcateAux] at hd
  | succ f ih =>
    intro k r d hd
    unfold demarcateAux at hd
    by_cases h0 : 0 < r
    · simp only [if_pos h0] at hd
      by_cases hδ : rand k (ms - 1) + 1 < r
      · simp only [if_pos hδ, List.mem_cons] at hd
        rcases hd with he | ht
        · have := hr k (ms - 1) (by omega)
          omega
        · exact ih (k + 1) (r - (rand k (ms - 1) + 1)) d ht
      · simp only [if_neg hδ, List.not_mem_nil] at hd
    · simp only [if_neg h0, List.not_mem_nil] at hd

/-- The stride pixels of `testPasswordCompatibility` advance by
`rng.rand(max_stride)` at each step: non-decreasing, each increment at most
`max_stride - 1` (and possibly 0). -/
theorem compatStridesAux_chain (rand : Nat → Nat → Nat)
    (hr : ∀ k b, 0 < b → rand k b < b) (ms : Nat) (hms : 2 ≤ ms) (limit : Nat) :
    ∀ fuel k n, List.Chain' (fun a b => a ≤ b ∧ b - a ≤ ms - 1)
      (n :: (compatStridesAux rand ms limit fuel k n).1) := by
  intro fuel
  induction fuel with
  | zero =>
    intro k n
    simp [compatStridesAux]
  | succ f ih =>
    intro k n
    unfold compatStridesAux
    by_cases hn : n < limit
    · simp only [if_pos hn]
      rw [List.chain'_cons]
      refine ⟨⟨Nat.le_add_right n _, ?_⟩, ih (k + 1) (n + rand k ms)⟩
      have := hr k ms (by omega)
      omega
    · simp only [if_neg hn]
      simp

/-- Strictly increasing pixel walk: if every delta is positive the pixel
indices `offset :: p_1 :: p_2 :: ...` form a strictly increasing chain. -/
theorem chain_lt_stridePixels :
    ∀ (l : List Nat), (∀ d ∈ l, 1 ≤ d) →
      ∀ a, List.Chain' (· < ·) (a :: stridePixels a l) := by
  intro l
  induction l with
  | nil =>
    intro _ a
    simp [stridePixels]
  | cons d rest ih =>
    intro hd a
    simp only [stridePixels]
    rw [List.chain'_cons]
    refine ⟨?_, ih (fun x hx => hd x (List.mem_cons_of_mem _ hx)) (a + d)⟩
    have := hd d (List.mem_cons_self d rest)
    omega

/-- Every pixel the demarcated walk can reach, the channel-spec pixel
included, stays below `a + r` where `r` is the remaining-pixel budget. -/
theorem demarcateAux_pixels_lt (rand : Nat → Nat → Nat) (ms : Nat) :
    ∀ fuel k r a, r ≤ fuel → 0 < r →
      ∀ p ∈ a :: stridePixels a (demarcateAux rand ms fuel k r).1, p < a + r := by
  intro fuel
  induction fuel with
  | zero =>
    intro k r a hrf hr0
    omega
  | succ f ih =>
    intro k r a hrf hr0 p hp
    unfold demarcateAux at hp
    simp only [if_pos hr0] at hp
    by_cases hδ : rand k (ms - 1) + 1 < r
    · simp only [if_pos hδ, stridePixels, List.mem_cons] at hp
      rcases hp with hpa | hp'
      · omega
      · have hh := ih (k + 1) (r - (rand k (ms - 1) + 1)) (a + (rand k (ms - 1) + 1))
          (by omega) (by omega) p
          (by simpa [List.mem_cons] using hp')
        omega
    · simp only [if_neg hδ, stridePixels, List.mem_cons, List.not_mem_nil, or_false] at hp
      omega

/-- C5, counterexample: the claim says every component draws
`rng.rand(max_stride - 1) + 1`, yielding stride values in
`[1, max_stride - 1]`, so that encode/decode and the compatibility test agree
on the stride sequence.  With the conforming generator `randZero` (every draw
0) and `max_stride = 3`: `demarcate_strides` (used by encode and decode) draws
`randZero 0 (3-1) + 1 = 1`, but `testPasswordCompatibility`'s walk starting at
offset 5 with test limit 7 produces the pixel list `[5, 5]` — its first
increment is 0, not in `[1, 2]`, and its first stride pixel differs from the
`5 + (rand(max_stride - 1) + 1)` the claimed convention dictates. -/
theorem c5_stride_convention_counterexample :
    (compatStridesAux randZero 3 7 2 0 5).1 = [5, 5] ∧
    (compatStridesAux randZero 3 7 2 0 5).1.getD 0 0 - 5 = 0 ∧
    ¬ 1 ≤ (compatStridesAux randZero 3 7 2 0 5).1.getD 0 0 - 5 ∧
    (demarcateAux randZero 3 7 0 7).1 = [1, 1, 1, 1, 1, 1] ∧
    (demarcateAux randZero 3 7 0 7).1.getD 0 0 = randZero 0 (3 - 1) + 1 ∧
    (compatStridesAux randZero 3 7 2 0 5).1.getD 0 0 ≠ 5 + (randZero 0 (3 - 1) + 1) := by
  decide

/-- C5, amended: `demarcate_strides` (shared by encode and decode) draws
`rng.rand(max_stride - 1) + 1`, so for a conforming generator its stride
values lie in `[1, max_stride - 1]`; but `testPasswordCompatibility` draws
`rng.rand(max_stride)` with no `+ 1`, so its pixel increments lie in
`[0, max_stride - 1]` — the two components do not share one convention. -/
theorem c5_stride_conventions_amended (rand : Nat → Nat → Nat)
    (hr : ∀ k b, 0 < b → rand k b < b) (ms : Nat) (hms : 2 ≤ ms)
    (fuel k r limit fuel' k' n : Nat) :
    (∀ d ∈ (demarcateAux rand ms fuel k r).1, 1 ≤ d ∧ d ≤ ms - 1) ∧
    List.Chain' (fun a b => a ≤ b ∧ b - a ≤ ms - 1)
      (n :: (compatStridesAux rand ms limit fuel' k' n).1) :=
  ⟨demarcateAux_delta_bounds rand hr ms hms fuel k r,
   compatStridesAux_chain rand hr ms hms limit fuel' k' n⟩

/-- Witness for `c5_stride_conventions_amended` at the concrete generator
`randZero`, `max_stride = 3`. -/
theorem c5_stride_conventions_amended_witness :
    (1 ≤ 1 ∧ 1 ≤ 3 - 1) ∧
    List.Chain' (fun a b => a ≤ b ∧ b - a ≤ 3 - 1)
      (5 :: (compatStridesAux randZero 3 7 2 0 5).1) :=
  ⟨(c5_stride_conventions_amended randZero (fun _ _ hb => hb) 3 (by decide)
      7 0 7 7 2 0 5).1 1 (by decide),
   (c5_stride_conventions_amended randZero (fun _ _ hb => hb) 3 (by decide)
      7 0 7 7 2 0 5).2⟩

/-- C7: a password shorter than `MIN_PASS_LENGTH = 8` makes the constructor
take the `Password is too short` branch: no parameters are derived (all stay
at the `-1` sentinel, the key stays empty), `demarcate_strides` leaves the
stride list empty, `setMessage`'s capacity gate `payload_size <= max_size`
fails against the `-1` sentinel so the carrier is never modulated, and
`getMessage`'s demodulation collects only the initial `0x00` byte whose
version field cannot match, so decoding fails too. -/
theorem c7_short_password (derive : List Nat → Params) (mt : Nat → Nat → Nat → Nat)
    (w h bpp : Nat) (frame : List Nat) (img modulated : Image)
    (md5Str arrStr : List Nat → List Char) (er eb eg : Bool) (pw : List Nat)
    (hshort : pw.length < MIN_PASS_LENGTH) :
    (buryInit derive pw).shortPwLogged = true ∧
    (buryInit derive pw).offset = -1 ∧
    (buryInit derive pw).maxStride = -1 ∧
    (buryInit derive pw).strideSeed = -1 ∧
    (buryInit derive pw).key = [] ∧
    buryDemarcate mt w h (buryInit derive pw) = [] ∧
    setMessageGate
      (buryMaxSize bpp (buryInit derive pw) (buryDemarcate mt w h (buryInit derive pw)))
      frame img modulated = (false, img) ∧
    demodulateVerdict md5Str arrStr
      (demodulateBytes img w er eb eg (buryInit derive pw).offset.toNat
        (buryDemarcate mt w h (buryInit derive pw))) = false := by
  have hb : buryInit derive pw =
      { offset := -1, maxStride := -1, strideSeed := -1, key := [],
        shortPwLogged := true } := by
    unfold buryInit
    rw [if_pos hshort]
  rw [hb]
  have hdem : buryDemarcate mt w h
      ({ offset := -1, maxStride := -1, strideSeed := -1, key := [],
         shortPwLogged := true } : BuryInit) = [] := by
    unfold buryDemarcate
    norm_num
  refine ⟨rfl, rfl, rfl, rfl, rfl, hdem, ?_, ?_⟩
  · rw [hdem]
    unfold buryMaxSize setMessageGate
    have hneg : ¬ ((frame.length : Int) ≤ -1) := by omega
    norm_num [hneg]
  · rw [hdem]
    rfl

/-- Witness for `c7_short_password`: the one-character password `"a"`. -/
theorem c7_short_password_witness :
    (buryInit deriveC ['a'.toNat]).shortPwLogged = true ∧
    (buryInit deriveC ['a'.toNat]).offset = -1 ∧
    (buryInit deriveC ['a'.toNat]).maxStride = -1 ∧
    (buryInit deriveC ['a'.toNat]).strideSeed = -1 ∧
    (buryInit deriveC ['a'.toNat]).key = [] ∧
    buryDemarcate (fun _ => randZero) 4 4 (buryInit deriveC ['a'.toNat]) = [] ∧
    setMessageGate
      (buryMaxSize 3 (buryInit deriveC ['a'.toNat])
        (buryDemarcate (fun _ => randZero) 4 4 (buryInit deriveC ['a'.toNat])))
      bytesC imgC imgC = (false, imgC) ∧
    demodulateVerdict hexC hexC
      (demodulateBytes imgC 4 true true true (buryInit deriveC ['a'.toNat]).offset.toNat
        (buryDemarcate (fun _ => randZero) 4 4 (buryInit deriveC ['a'.toNat]))) = false :=
  c7_short_password deriveC (fun _ => randZero) 4 4 3 bytesC imgC imgC hexC hexC
    true true true ['a'.toNat] (by decide)

/-- C8: over any carrier with `offset < width * height`, the demarcated walk
yields strictly increasing pixel indices, every visited pixel (the offset
pixel included) stays below `width * height`, and the schedule is a function
of exactly `(width, height, offset, max_stride)` and the seeded generator —
two generators that agree call-by-call give the same schedule. -/
theorem c8_schedule_invariants (rand : Nat → Nat → Nat) (w h offset ms : Nat)
    (hoff : offset < w * h) :
    List.Chain' (· < ·) (offset :: stridePixels offset (demarcate rand w h offset ms).1) ∧
    (∀ p ∈ offset :: stridePixels offset (demarcate rand w h offset ms).1, p < w * h) ∧
    (∀ rand' : Nat → Nat → Nat, (∀ k b, rand k b = rand' k b) →
      demarcate rand w h offset ms = demarcate rand' w h offset ms) := by
  refine ⟨?_, ?_, ?_⟩
  · exact chain_lt_stridePixels _
      (fun d hd => demarcateAux_one_le rand ms (w * h - offset) 0 (w * h - offset) d hd)
      offset
  · intro p hp
    have := demarcateAux_pixels_lt rand ms (w * h - offset) 0 (w * h - offset) offset
      le_rfl (by omega) p hp
    omega
  · intro rand' hre
    have he : rand = rand' := funext fun k => funext fun b => hre k b
    rw [he]

/-- Witness for `c8_schedule_invariants`: a 3×4 carrier, offset 2,
`max_stride = 3`, generator `randZero`. -/
theorem c8_schedule_invariants_witness :
    (2 : Nat) < 3 * 4 ∧
    List.Chain' (· < ·) (2 :: stridePixels 2 (demarcate randZero 3 4 2 3).1) :=
  ⟨by decide, (c8_schedule_invariants randZero 3 4 2 3 (by decide)).1⟩

set_option maxRecDepth 4096 in
/-- Setting the LSB of a byte-bounded channel by `(y & 0xFE) + b` keeps the
upper seven bits and the byte bound. -/
theorem upper7_add : ∀ y < 256, ∀ b < 2,
    ((y &&& 254) + b) >>> 1 = y >>> 1 ∧ ((y &&& 254) + b) < 256 := by
  decide

set_option maxRecDepth 4096 in
/-- Setting the LSB of a byte-bounded channel by `(y & 0xFE) | b` keeps the
upper seven bits and the byte bound. -/
theorem upper7_or : ∀ y < 256, ∀ b < 2,
    ((y &&& 254) ||| b) >>> 1 = y >>> 1 ∧ ((y &&& 254) ||| b) < 256 := by
  decide

theorem and255_eq_mod (x : Nat) : x &&& 255 = x % 256 :=
  Nat.and_pow_two_sub_one_eq_mod x 8

theorem and254_eq (x : Nat) : x &&& 254 = (x &&& 255) &&& 254 := by
  rw [Nat.and_assoc]
  congr 1

theorem getRed_lt (c : Nat) : getRed c < 256 := by
  have h := Nat.and_le_right (n := c >>> 16) (m := 255)
  unfold getRed
  omega

theorem getGreen_lt (c : Nat) : getGreen c < 256 := by
  have h := Nat.and_le_right (n := c >>> 8) (m := 255)
  unfold getGreen
  omega

theorem getBlue_lt (c : Nat) : getBlue c < 256 := by
  have h := Nat.and_le_right (n := c) (m := 255)
  unfold getBlue
  omega

/-- Channel extraction inverts `colorAllocate` packing for byte-bounded
channels. -/
theorem pack24_channels (r g b : Nat) (hr : r < 256) (hg : g < 256) (hb : b < 256) :
    getRed (pack24 r g b) = r ∧ getGreen (pack24 r g b) = g ∧
      getBlue (pack24 r g b) = b := by
  unfold getRed getGreen getBlue pack24
  simp only [Nat.shiftRight_eq_div_pow, and255_eq_mod]
  norm_num
  omega

theorem preserves7_refl (img : Image) : Preserves7 img img :=
  fun _ => ⟨rfl, rfl, rfl⟩

theorem preserves7_trans {a b c : Image} (h1 : Preserves7 a b) (h2 : Preserves7 b c) :
    Preserves7 a c := by
  intro q
  exact ⟨(h2 q).1.trans (h1 q).1, (h2 q).2.1.trans (h1 q).2.1, (h2 q).2.2.trans (h1 q).2.2⟩

/-- One `setPixel` with channels that keep byte bounds and upper-seven bits
preserves the upper seven bits of every pixel. -/
theorem preserves7_set (img : Image) (p r' g' b' : Nat)
    (hr : r' < 256 ∧ r' >>> 1 = getRed (img p) >>> 1)
    (hg : g' < 256 ∧ g' >>> 1 = getGreen (img p) >>> 1)
    (hb : b' < 256 ∧ b' >>> 1 = getBlue (img p) >>> 1) :
    Preserves7 img (setPixelLinear img p (pack24 r' g' b')) := by
  intro q
  unfold setPixelLinear
  by_cases hq : q = p
  · rw [if_pos hq, hq]
    have hch := pack24_channels r' g' b' hr.1 hg.1 hb.1
    rw [hch.1, hch.2.1, hch.2.2]
    exact ⟨hr.2, hg.2, hb.2⟩
  · rw [if_neg hq]
    exact ⟨rfl, rfl, rfl⟩

/-- The function `set_channel_spec` touches only LSBs: the upper seven bits of every
channel of every pixel survive. -/
theorem set_channel_spec_preserves7 (img : Image) (w offset : Nat) (er eg eb : Bool) :
    Preserves7 img (set_channel_spec img w offset er eg eb) := by
  unfold set_channel_spec
  apply preserves7_set
  · rw [and254_eq]
    exact ⟨(upper7_or _ (getRed_lt _) _ (by cases er <;> decide)).2,
      (upper7_or _ (getRed_lt _) _ (by cases er <;> decide)).1⟩
  · rw [and254_eq]
    exact ⟨(upper7_or _ (getGreen_lt _) _ (by cases eg <;> decide)).2,
      (upper7_or _ (getGreen_lt _) _ (by cases eg <;> decide)).1⟩
  · rw [and254_eq]
    exact ⟨(upper7_or _ (getBlue_lt _) _ (by cases eb <;> decide)).2,
      (upper7_or _ (getBlue_lt _) _ (by cases eb <;> decide)).1⟩

/-- Any bit `getBit` hands out is 0 or 1. -/
theorem getBit_le_one (rand : Nat → Nat → Nat) (visible : Bool) (ct : List Nat)
    (ps : Nat) (st : GBState) :
    ∀ b, (getBit rand visible ct ps st).1 = some b → b ≤ 1 := by
  intro b hb
  unfold getBit at hb
  dsimp only at hb
  split at hb
  · split at hb <;> (simp only [Option.some.injEq] at hb; omega)
  · split at hb
    · exact absurd hb (by simp)
    · split at hb <;> (simp only [Option.some.injEq] at hb; omega)

/-- Any bit a `modChan` call assigns is 0 or 1. -/
theorem modChan_le_one (rand : Nat → Nat → Nat) (visible : Bool) (ct : List Nat)
    (ps : Nat) (e : Bool) (st : GBState) :
    ∀ b, (modChan rand visible ct ps e st).1 = some (some b) → b ≤ 1 := by
  intro b hb
  unfold modChan at hb
  split at hb
  · simp only [Option.some.injEq] at hb
    exact getBit_le_one rand visible ct ps st b hb
  · simp_all

/-- The update `if (bit !== false) chan = (chan & 0xFE) + bit` keeps byte bounds and
upper-seven bits for any assigned bit that is 0 or 1. -/
theorem applyBit_facts (chan : Nat) (hc : chan < 256) (r : Option (Option Nat))
    (hr : ∀ b, r = some (some b) → b ≤ 1) :
    applyBit chan r < 256 ∧ (applyBit chan r) >>> 1 = chan >>> 1 := by
  rcases r with _ | rb
  · exact ⟨hc, rfl⟩
  · rcases rb with _ | b
    · exact ⟨hc, rfl⟩
    · have hb := hr b rfl
      have h := upper7_add chan hc b (by omega)
      exact ⟨h.2, h.1⟩

/-- One invisible-mode `modulate` pixel step preserves the upper seven bits
of every channel of every pixel. -/
theorem modulatePixel_preserves7 (rand : Nat → Nat → Nat) (ct : List Nat)
    (ps : Nat) (er eb eg : Bool) (w : Nat) (img : Image) (absPix : Nat)
    (st : GBState) :
    Preserves7 img (modulatePixel rand false ct ps er eb eg w img absPix st).1 := by
  unfold modulatePixel
  dsimp only
  apply preserves7_set
  · exact applyBit_facts _ (getRed_lt _) _ (modChan_le_one _ _ _ _ _ _)
  · exact applyBit_facts _ (getGreen_lt _) _ (modChan_le_one _ _ _ _ _ _)
  · exact applyBit_facts _ (getBlue_lt _) _ (modChan_le_one _ _ _ _ _ _)

/-- The invisible-mode pixel loop preserves the upper seven bits of every
channel of every pixel. -/
theorem modulateAux_preserves7 (rand : Nat → Nat → Nat) (ct : List Nat)
    (ps : Nat) (er eb eg : Bool) (w : Nat) :
    ∀ strides abs img st,
      Preserves7 img (modulateAux rand false ct ps er eb eg w strides abs img st).1 := by
  intro strides
  induction strides with
  | nil =>
    intro abs img st
    exact preserves7_refl img
  | cons d rest ih =>
    intro abs img st
    unfold modulateAux
    exact preserves7_trans (modulatePixel_preserves7 rand ct ps er eb eg w img (abs + d) st)
      (ih (abs + d) _ _)

/-- The step `modulatePixel` writes only the pixel at linear index `abs_pix`. -/
theorem modulatePixel_writes_only (rand : Nat → Nat → Nat) (visible : Bool)
    (ct : List Nat) (ps : Nat) (er eb eg : Bool) (w : Nat) (img : Image)
    (absPix : Nat) (st : GBState) (q : Nat) (hq : q ≠ absPix) :
    (modulatePixel rand visible ct ps er eb eg w img absPix st).1 q = img q := by
  have hidx : (absPix / w) * w + absPix % w = absPix := by
    rw [Nat.mul_comm]
    exact Nat.div_add_mod absPix w
  unfold modulatePixel
  split
  · simp only [setPixelLinear, hidx, if_neg hq]
  · simp only [setPixelLinear, hidx, if_neg hq]

/-- The pixel loop leaves every pixel outside the stride walk untouched. -/
theorem modulateAux_untouched (rand : Nat → Nat → Nat) (visible : Bool)
    (ct : List Nat) (ps : Nat) (er eb eg : Bool) (w : Nat) :
    ∀ strides abs img st q, q ∉ stridePixels abs strides →
      (modulateAux rand visible ct ps er eb eg w strides abs img st).1 q = img q := by
  intro strides
  induction strides with
  | nil =>
    intro abs img st q _
    rfl
  | cons d rest ih =>
    intro abs img st q hq
    simp only [stridePixels, List.mem_cons, not_or] at hq
    unfold modulateAux
    rw [ih (abs + d) _ _ q hq.2]
    exact modulatePixel_writes_only rand visible ct ps er eb eg w img (abs + d) st q hq.1

/-- C9: with `visible_result` disabled, modulation leaves every pixel other
than the offset pixel `p_0` and the stride pixels `p_i` byte-for-byte
unchanged, and the upper seven bits of every RGB channel of *every* pixel —
the touched ones included — are unchanged: only least-significant bits of
enabled channels are modified. -/
theorem c9_modulate_effect (rand : Nat → Nat → Nat) (ct : List Nat) (ps : Nat)
    (er eg eb : Bool) (w : Nat) (img : Image) (offset : Nat) (strides : List Nat)
    (k0 : Nat) (q : Nat)
    (hq : q ∉ offset :: stridePixels offset strides) :
    (modulateFull rand false ct ps er eg eb w img offset strides k0).1 q = img q ∧
    Preserves7 img (modulateFull rand false ct ps er eg eb w img offset strides k0).1 := by
  simp only [List.mem_cons, not_or] at hq
  constructor
  · unfold modulateFull
    rw [modulateAux_untouched rand false ct ps er eb eg w strides offset _ _ q hq.2]
    have hidx : (offset / w) * w + offset % w = offset := by
      rw [Nat.mul_comm]
      exact Nat.div_add_mod offset w
    unfold set_channel_spec
    simp only [setPixelLinear, hidx, if_neg hq.1]
  · exact preserves7_trans (set_channel_spec_preserves7 img w offset er eg eb)
      (modulateAux_preserves7 rand ct ps er eb eg w strides offset _ _)

/-- Witness for `c9_modulate_effect`: a 2-wide carrier, offset 1, one stride;
pixel 0 is untouched. -/
theorem c9_modulate_effect_witness :
    ((0 : Nat) ∉ (1 : Nat) :: stridePixels 1 [1]) ∧
    (modulateFull randZero false [171] 1 true true true 2 imgC 1 [1] 0).1 0 = imgC 0 :=
  ⟨by decide,
   (c9_modulate_effect randZero [171] 1 true true true 2 imgC 1 [1] 0 0 (by decide)).1⟩

/-- The function `getBit` in invisible mode: the state transition is the same for any two
ciphertexts, the cursor-to-payload distance shrinks by exactly one per call,
and once the cursor has passed the payload the returned bit (the filler bit,
drawn from `rng.rand(1)`) does not depend on the ciphertext either. -/
theorem getBit_filler (rand : Nat → Nat → Nat) (ps : Nat) (ct₁ ct₂ : List Nat)
    (st : GBState) :
    (getBit rand false ct₁ ps st).2 = (getBit rand false ct₂ ps st).2 ∧
    ps * 8 - (getBit rand false ct₁ ps st).2.1 = (ps * 8 - st.1) - 1 ∧
    (ps * 8 ≤ st.1 → (getBit rand false ct₁ ps st).1 = (getBit rand false ct₂ ps st).1) := by
  by_cases h : st.1 < ps * 8
  · have e₁ : getBit rand false ct₁ ps st =
        (some (if ct₁.getD (st.1 / 8) 0 &&& (1 <<< (st.1 % 8)) ≠ 0 then 1 else 0),
          (st.1 + 1, st.2)) := by
      unfold getBit
      rw [if_pos h]
    have e₂ : getBit rand false ct₂ ps st =
        (some (if ct₂.getD (st.1 / 8) 0 &&& (1 <<< (st.1 % 8)) ≠ 0 then 1 else 0),
          (st.1 + 1, st.2)) := by
      unfold getBit
      rw [if_pos h]
    rw [e₁, e₂]
    exact ⟨rfl, by dsimp only; omega, fun hge => absurd h (by omega)⟩
  · have e₁ : getBit rand false ct₁ ps st =
        (some (if rand st.2 1 ≠ 0 then 1 else 0), (st.1, st.2 + 1)) := by
      unfold getBit
      rw [if_neg h, if_neg Bool.false_ne_true]
    have e₂ : getBit rand false ct₂ ps st =
        (some (if rand st.2 1 ≠ 0 then 1 else 0), (st.1, st.2 + 1)) := by
      unfold getBit
      rw [if_neg h, if_neg Bool.false_ne_true]
    rw [e₁, e₂]
    exact ⟨rfl, by dsimp only; omega, fun _ => rfl⟩

/-- The `modChan` analogue of `getBit_filler`, with the trace accounted. -/
theorem modChan_filler (rand : Nat → Nat → Nat) (ps : Nat) (e : Bool)
    (ct₁ ct₂ : List Nat) (st : GBState) :
    (modChan rand false ct₁ ps e st).2.1 = (modChan rand false ct₂ ps e st).2.1 ∧
    (modChan rand false ct₁ ps e st).2.2.length =
      (modChan rand false ct₂ ps e st).2.2.length ∧
    ps * 8 - (modChan rand false ct₁ ps e st).2.1.1 =
      (ps * 8 - st.1) - (modChan rand false ct₁ ps e st).2.2.length ∧
    List.drop (ps * 8 - st.1) (modChan rand false ct₁ ps e st).2.2 =
      List.drop (ps * 8 - st.1) (modChan rand false ct₂ ps e st).2.2 := by
  obtain ⟨hgs, hgc, hgr⟩ := getBit_filler rand ps ct₁ ct₂ st
  by_cases he : e = true
  · have e₁ : modChan rand false ct₁ ps e st =
        (some (getBit rand false ct₁ ps st).1, (getBit rand false ct₁ ps st).2,
          [(getBit rand false ct₁ ps st).1]) := by
      unfold modChan
      rw [if_pos he]
    have e₂ : modChan rand false ct₂ ps e st =
        (some (getBit rand false ct₂ ps st).1, (getBit rand false ct₂ ps st).2,
          [(getBit rand false ct₂ ps st).1]) := by
      unfold modChan
      rw [if_pos he]
    rw [e₁, e₂]
    dsimp only
    refine ⟨hgs, rfl, by simpa using hgc, ?_⟩
    rcases Nat.eq_zero_or_pos (ps * 8 - st.1) with h0 | hpos
    · rw [h0]
      simp only [List.drop_zero]
      rw [hgr (by omega)]
    · rw [List.drop_eq_nil_of_le (by simp only [List.length_singleton]; omega),
        List.drop_eq_nil_of_le (by simp only [List.length_singleton]; omega)]
  · have e₁ : modChan rand false ct₁ ps e st = (none, st, []) := by
      unfold modChan
      rw [if_neg he]
    have e₂ : modChan rand false ct₂ ps e st = (none, st, []) := by
      unfold modChan
      rw [if_neg he]
    rw [e₁, e₂]
    exact ⟨rfl, rfl, by simp, rfl⟩

/-- Splicing two equal-shape traces: if the first parts agree in length and
beyond the cut, and the second parts agree beyond the shifted cut, the
concatenations agree beyond the cut. -/
theorem drop_append_congr {α : Type} {n : Nat} {a b a' b' : List α}
    (hl : a.length = a'.length) (ha : a.drop n = a'.drop n)
    (hb : b.drop (n - a.length) = b'.drop (n - a.length)) :
    (a ++ b).drop n = (a' ++ b').drop n := by
  rw [List.drop_append_eq_append_drop, List.drop_append_eq_append_drop, ← hl, ha, hb]

/-- In invisible mode the generator-state and trace outcome of one pixel is
the composition of the three channel draws (red, blue, green). -/
theorem modulatePixel_snd (rand : Nat → Nat → Nat) (ct : List Nat) (ps : Nat)
    (er eb eg : Bool) (w : Nat) (img : Image) (absPix : Nat) (st : GBState) :
    (modulatePixel rand false ct ps er eb eg w img absPix st).2 =
      ((modChan rand false ct ps eg
          (modChan rand false ct ps eb (modChan rand false ct ps er st).2.1).2.1).2.1,
        ((modChan rand false ct ps er st).2.2 ++
            (modChan rand false ct ps eb (modChan rand false ct ps er st).2.1).2.2) ++
          (modChan rand false ct ps eg
            (modChan rand false ct ps eb (modChan rand false ct ps er st).2.1).2.1).2.2) :=
  rfl

/-- The `modulatePixel` analogue of `modChan_filler`: one pixel's generator
state and its trace beyond the payload do not depend on the ciphertext or on
the carrier. -/
theorem modulatePixel_filler (rand : Nat → Nat → Nat) (ps : Nat) (er eb eg : Bool)
    (w : Nat) (ct₁ ct₂ : List Nat) (img₁ img₂ : Image) (absPix : Nat) (st : GBState) :
    (modulatePixel rand false ct₁ ps er eb eg w img₁ absPix st).2.1 =
      (modulatePixel rand false ct₂ ps er eb eg w img₂ absPix st).2.1 ∧
    (modulatePixel rand false ct₁ ps er eb eg w img₁ absPix st).2.2.length =
      (modulatePixel rand false ct₂ ps er eb eg w img₂ absPix st).2.2.length ∧
    ps * 8 - (modulatePixel rand false ct₁ ps er eb eg w img₁ absPix st).2.1.1 =
      (ps * 8 - st.1) -
        (modulatePixel rand false ct₁ ps er eb eg w img₁ absPix st).2.2.length ∧
    List.drop (ps * 8 - st.1) (modulatePixel rand false ct₁ ps er eb eg w img₁ absPix st).2.2 =
      List.drop (ps * 8 - st.1)
        (modulatePixel rand false ct₂ ps er eb eg w img₂ absPix st).2.2 := by
  obtain ⟨h1s, h1l, h1c, h1d⟩ := modChan_filler rand ps er ct₁ ct₂ st
  obtain ⟨h2s, h2l, h2c, h2d⟩ :=
    modChan_filler rand ps eb ct₁ ct₂ (modChan rand false ct₁ ps er st).2.1
  obtain ⟨h3s, h3l, h3c, h3d⟩ := modChan_filler rand ps eg ct₁ ct₂
    (modChan rand false ct₁ ps eb (modChan rand false ct₁ ps er st).2.1).2.1
  rw [modulatePixel_snd rand ct₁ ps er eb eg w img₁ absPix st,
    modulatePixel_snd rand ct₂ ps er eb eg w img₂ absPix st]
  dsimp only
  rw [← h1s, ← h2s]
  refine ⟨h3s, by simp [List.length_append, h1l, h2l, h3l], ?_, ?_⟩
  · simp only [List.length_append]
    omega
  · refine drop_append_congr (by simp [List.length_append, h1l, h2l]) ?_ ?_
    · refine drop_append_congr h1l h1d ?_
      rw [h1c] at h2d
      exact h2d
    · have hidx : ps * 8 - st.1 -
          ((modChan rand false ct₁ ps er st).2.2 ++
            (modChan rand false ct₁ ps eb
              (modChan rand false ct₁ ps er st).2.1).2.2).length =
          ps * 8 - (modChan rand false ct₁ ps eb
            (modChan rand false ct₁ ps er st).2.1).2.1.1 := by
        simp only [List.length_append]
        omega
      rw [hidx]
      exact h3d

/-- Unfolding of the pixel loop at a cons cell. -/
theorem modulateAux_snd_cons (rand : Nat → Nat → Nat) (visible : Bool)
    (ct : List Nat) (ps : Nat) (er eb eg : Bool) (w d : Nat) (rest : List Nat)
    (abs : Nat) (img : Image) (st : GBState) :
    (modulateAux rand visible ct ps er eb eg w (d :: rest) abs img st).2 =
      ((modulateAux rand visible ct ps er eb eg w rest (abs + d)
          (modulatePixel rand visible ct ps er eb eg w img (abs + d) st).1
          (modulatePixel rand visible ct ps er eb eg w img (abs + d) st).2.1).2.1,
        (modulatePixel rand visible ct ps er eb eg w img (abs + d) st).2.2 ++
          (modulateAux rand visible ct ps er eb eg w rest (abs + d)
            (modulatePixel rand visible ct ps er eb eg w img (abs + d) st).1
            (modulatePixel rand visible ct ps er eb eg w img (abs + d) st).2.1).2.2) :=
  rfl

/-- The whole invisible-mode pixel loop: generator state and the trace beyond
the payload are independent of both the ciphertext contents and the carrier
pixels. -/
theorem modulateAux_filler (rand : Nat → Nat → Nat) (ps : Nat) (er eb eg : Bool)
    (w : Nat) (ct₁ ct₂ : List Nat) :
    ∀ (strides : List Nat) (abs : Nat) (img₁ img₂ : Image) (st : GBState),
      (modulateAux rand false ct₁ ps er eb eg w strides abs img₁ st).2.1 =
        (modulateAux rand false ct₂ ps er eb eg w strides abs img₂ st).2.1 ∧
      (modulateAux rand false ct₁ ps er eb eg w strides abs img₁ st).2.2.length =
        (modulateAux rand false ct₂ ps er eb eg w strides abs img₂ st).2.2.length ∧
      ps * 8 - (modulateAux rand false ct₁ ps er eb eg w strides abs img₁ st).2.1.1 =
        (ps * 8 - st.1) -
          (modulateAux rand false ct₁ ps er eb eg w strides abs img₁ st).2.2.length ∧
      List.drop (ps * 8 - st.1)
          (modulateAux rand false ct₁ ps er eb eg w strides abs img₁ st).2.2 =
        List.drop (ps * 8 - st.1)
          (modulateAux rand false ct₂ ps er eb eg w strides abs img₂ st).2.2 := by
  intro strides
  induction strides with
  | nil =>
    intro abs img₁ img₂ st
    exact ⟨rfl, rfl, rfl, rfl⟩
  | cons d rest ih =>
    intro abs img₁ img₂ st
    obtain ⟨hps, hpl, hpc, hpd⟩ :=
      modulatePixel_filler rand ps er eb eg w ct₁ ct₂ img₁ img₂ (abs + d) st
    obtain ⟨hrs, hrl, hrc, hrd⟩ := ih (abs + d)
      (modulatePixel rand false ct₁ ps er eb eg w img₁ (abs + d) st).1
      (modulatePixel rand false ct₂ ps er eb eg w img₂ (abs + d) st).1
      (modulatePixel rand false ct₁ ps er eb eg w img₁ (abs + d) st).2.1
    rw [modulateAux_snd_cons rand false ct₁ ps er eb eg w d rest abs img₁ st,
      modulateAux_snd_cons rand false ct₂ ps er eb eg w d rest abs img₂ st]
    dsimp only
    rw [← hps]
    refine ⟨hrs, by simp [List.length_append, hpl, hrl], ?_, ?_⟩
    · simp only [List.length_append]
      omega
    · refine drop_append_congr hpl hpd ?_
      rw [hpc] at hrd
      exact hrd

/-- C10: the filler bits that `modulate` writes once the payload bits are
exhausted come from the same password-seeded Mersenne Twister stream that
generated the strides (the pipeline threads the generator call counter from
`demarcate_strides` into `getBit`), not from a fresh random source: two encode
runs with the same generator, the same carrier dimensions and derived
parameters, and the same payload length write identical filler bits, whatever
the ciphertext contents and carrier pixels are. -/
theorem c10_filler_bits_deterministic (rand : Nat → Nat → Nat)
    (w h offset ms ps : Nat) (er eg eb : Bool) (ct₁ ct₂ : List Nat)
    (img₁ img₂ : Image) :
    List.drop (ps * 8)
        (encodePipeline rand w h offset ms false ct₁ ps er eg eb img₁).2.2 =
      List.drop (ps * 8)
        (encodePipeline rand w h offset ms false ct₂ ps er eg eb img₂).2.2 := by
  have hf := (modulateAux_filler rand ps er eb eg w ct₁ ct₂
    (demarcate rand w h offset ms).1 offset
    (set_channel_spec img₁ w offset er eg eb)
    (set_channel_spec img₂ w offset er eg eb)
    (0, (demarcate rand w h offset ms).2)).2.2.2
  simpa [encodePipeline, modulateFull] using hf

end Bury
